import Mathlib

/-
Verification of the protsupport repository: geometry utilities
(protsupport/utils/geometry.py) and the structured transformer model
(protsupport/modules/protein_transformer.py), shallowly embedded over the
real numbers.
-/

namespace Protsupport

/-! ## Geometry utilities (protsupport/utils/geometry.py) -/

/-- Euclidean norm of a 3-vector, as computed by np.linalg.norm. -/
noncomputable def norm3 (v : Fin 3 → ℝ) : ℝ :=
  Real.sqrt (v 0 ^ 2 + v 1 ^ 2 + v 2 ^ 2)

/-- Normalisation step axis / np.linalg.norm(axis) at the top of
compute_rotation_matrix. -/
noncomputable def normalize3 (v : Fin 3 → ℝ) : Fin 3 → ℝ :=
  fun i => v i / norm3 v

/-- The matrix built inside compute_rotation_matrix: the strictly upper
triangular matrix of the normalised axis components, antisymmetrised as
matrix - matrix.T. -/
def skewFromUpper (a : Fin 3 → ℝ) : Matrix (Fin 3) (Fin 3) ℝ :=
  !![0, -a 2, a 1; 0, 0, -a 0; 0, 0, 0] -
  (!![0, -a 2, a 1; 0, 0, -a 0; 0, 0, 0]).transpose

/-- compute_rotation_matrix from geometry.py: the axis is normalised, the
skew matrix is built by antisymmetrisation, and the result is
np.eye(3) + sin(angle) * K + (1 - cos(angle)) * (K @ K). -/
noncomputable def compute_rotation_matrix (axis : Fin 3 → ℝ) (angle : ℝ) :
    Matrix (Fin 3) (Fin 3) ℝ :=
  1 + Real.sin angle • skewFromUpper (normalize3 axis) +
    (1 - Real.cos angle) •
      (skewFromUpper (normalize3 axis) * skewFromUpper (normalize3 axis))

/-- Skew-symmetric cross-product matrix of a 3-vector, used to state the
Rodrigues form of the rotation matrix. -/
def crossMatrix (u : Fin 3 → ℝ) : Matrix (Fin 3) (Fin 3) ℝ :=
  !![0, -u 2, u 1; u 2, 0, -u 0; -u 1, u 0, 0]

/-- The rotation matrix written out entrywise, with s the sine, c the cosine
and u the normalised axis. -/
noncomputable def rotExplicit (u : Fin 3 → ℝ) (s c : ℝ) :
    Matrix (Fin 3) (Fin 3) ℝ :=
  !![1 - (1 - c) * (u 1 ^ 2 + u 2 ^ 2), -s * u 2 + (1 - c) * (u 0 * u 1),
       s * u 1 + (1 - c) * (u 0 * u 2);
     s * u 2 + (1 - c) * (u 0 * u 1), 1 - (1 - c) * (u 0 ^ 2 + u 2 ^ 2),
       -s * u 0 + (1 - c) * (u 1 * u 2);
     -s * u 1 + (1 - c) * (u 0 * u 2), s * u 0 + (1 - c) * (u 1 * u 2),
       1 - (1 - c) * (u 0 ^ 2 + u 1 ^ 2)]

/-- matrix_to_quaternion from geometry.py, numpy path: w is
sqrt(1 + trace) / 2, and the vector part divides the antisymmetric entries
by w4 = 4 * w. -/
noncomputable def matrix_to_quaternion (m : Matrix (Fin 3) (Fin 3) ℝ) :
    Fin 4 → ℝ :=
  ![Real.sqrt (1 + m 0 0 + m 1 1 + m 2 2) / 2,
    (m 2 1 - m 1 2) / (4 * (Real.sqrt (1 + m 0 0 + m 1 1 + m 2 2) / 2)),
    (m 0 2 - m 2 0) / (4 * (Real.sqrt (1 + m 0 0 + m 1 1 + m 2 2) / 2)),
    (m 1 0 - m 0 1) / (4 * (Real.sqrt (1 + m 0 0 + m 1 1 + m 2 2) / 2))]

/-- _np_relative_orientation from geometry.py for 3 x n arrays of points:
offset = y - x, distance is the columnwise Euclidean norm, direction is
x_o.T applied to offset / distance with every column of zero distance then
overwritten by zero, and rotation is matrix_to_quaternion (x_o.T @ y_o). -/
noncomputable def np_relative_orientation (n : ℕ) (x y : Fin 3 → Fin n → ℝ)
    (x_o y_o : Matrix (Fin 3) (Fin 3) ℝ) :
    (Fin n → ℝ) × (Fin 3 → Fin n → ℝ) × (Fin 4 → ℝ) :=
  let offset : Fin 3 → Fin n → ℝ := fun i j => y i j - x i j
  let distance : Fin n → ℝ := fun j => norm3 (fun i => offset i j)
  let direction0 : Fin 3 → Fin n → ℝ :=
    fun i j => ∑ m : Fin 3, x_o.transpose i m * (offset m j / distance j)
  let direction : Fin 3 → Fin n → ℝ :=
    fun i j => if distance j = 0 then 0 else direction0 i j
  (distance, direction, matrix_to_quaternion (x_o.transpose * y_o))

/-- relative_orientation from geometry.py on numpy inputs: the dispatcher
delegates to _np_relative_orientation when the arguments are not torch
tensors. -/
noncomputable def relative_orientation (n : ℕ) (x y : Fin 3 → Fin n → ℝ)
    (x_o y_o : Matrix (Fin 3) (Fin 3) ℝ) :
    (Fin n → ℝ) × (Fin 3 → Fin n → ℝ) × (Fin 4 → ℝ) :=
  np_relative_orientation n x y x_o y_o

/-- Python float modulo with a positive modulus, used by the dihedral
criterion of _assign_psea_aux: a % b = a - b * floor(a / b). -/
noncomputable def pymod (a b : ℝ) : ℝ := a - b * (⌊a / b⌋ : ℤ)

/-- _assign_psea_aux from geometry.py, written exactly in source order: the
three distance criteria are accumulated, then the dihedral window criterion
is accumulated twice in a row (both times computed from dihedral_spec); the
angle and angle_spec arguments are never consulted. -/
noncomputable def assign_psea_aux (distances : ℕ → ℝ) (dihedral angle : ℝ)
    (distance_spec : Fin 3 → ℝ × ℝ)
    (dihedral_spec angle_spec : ℝ × ℝ) : Prop :=
  let good0 := True
  let good1 := good0 ∧ ((distance_spec 0).1 - (distance_spec 0).2 < distances 2 ∧
    distances 2 < (distance_spec 0).1 + (distance_spec 0).2)
  let good2 := good1 ∧ ((distance_spec 1).1 - (distance_spec 1).2 < distances 3 ∧
    distances 3 < (distance_spec 1).1 + (distance_spec 1).2)
  let good3 := good2 ∧ ((distance_spec 2).1 - (distance_spec 2).2 < distances 4 ∧
    distances 4 < (distance_spec 2).1 + (distance_spec 2).2)
  let left1 := pymod (dihedral_spec.1 - dihedral_spec.2 + 180) 360 / 180 * Real.pi
  let right1 := pymod (dihedral_spec.1 + dihedral_spec.2 + 180) 360 / 180 * Real.pi
  let good4 := good3 ∧ (left1 < dihedral ∧ dihedral < right1)
  let left2 := pymod (dihedral_spec.1 - dihedral_spec.2 + 180) 360 / 180 * Real.pi
  let right2 := pymod (dihedral_spec.1 + dihedral_spec.2 + 180) 360 / 180 * Real.pi
  good4 ∧ (left2 < dihedral ∧ dihedral < right2)

/-! ## Structured transformer (protsupport/modules/protein_transformer.py)

The feature and structure types are abstract; the attention module, the MLP
and the LayerNorm modules come from libraries outside this file, so they
are carried as opaque functions on the feature type. -/

/-- A StructuredTransformerEncoderBlock after construction: the attention
sublayer, the MLP sublayer (called local in the source; Lean reserves that
word), the dropout wrapper and the two normalisation wrappers. -/
structure StructuredTransformerEncoderBlock (α σ : Type) where
  pre_norm : Bool
  attention : α → α → σ → α
  local_mlp : α → α
  dropout : α → α
  bn : α → α
  local_bn : α → α

/-- Constructor logic of StructuredTransformerEncoderBlock.__init__: the
dropout wrapper is the identity unless a dropout module is given, and the
two normalisation wrappers are LayerNorm modules only when batch_norm is
set, otherwise the identity. -/
def StructuredTransformerEncoderBlock.init {α σ : Type}
    (pre_norm batch_norm : Bool) (dropout : Option (α → α))
    (attention : α → α → σ → α) (local_mlp : α → α) (ln1 ln2 : α → α) :
    StructuredTransformerEncoderBlock α σ where
  pre_norm := pre_norm
  attention := attention
  local_mlp := local_mlp
  dropout := match dropout with
    | none => fun x => x
    | some d => d
  bn := if batch_norm then ln1 else fun x => x
  local_bn := if batch_norm then ln2 else fun x => x

/-- StructuredTransformerEncoderBlock.forward: pre-norm branch normalises
before each sublayer; post-norm branch normalises after each residual
addition. -/
def StructuredTransformerEncoderBlock.forward {α σ : Type} [Add α]
    (b : StructuredTransformerEncoderBlock α σ) (features : α) (struc : σ) :
    α :=
  if b.pre_norm then
    let normed := b.bn features
    let out := features + b.dropout (b.attention normed normed struc)
    out + b.dropout (b.local_mlp (b.local_bn out))
  else
    let out := features + b.dropout (b.attention features features struc)
    let out2 := b.bn out
    let out3 := out2 + b.dropout (b.local_mlp out2)
    b.local_bn out3

/-- A StructuredTransformerEncoder after construction: the linear input
projection and the list of encoder blocks. -/
structure StructuredTransformerEncoder (β α σ : Type) where
  preprocessor : β → α
  blocks : List (StructuredTransformerEncoderBlock α σ)

/-- Constructor logic of StructuredTransformerEncoder.__init__: depth
blocks are constructed, one per loop iteration. -/
def StructuredTransformerEncoder.init {β α σ : Type} (preprocessor : β → α)
    (depth : ℕ) (blockAt : ℕ → StructuredTransformerEncoderBlock α σ) :
    StructuredTransformerEncoder β α σ where
  preprocessor := preprocessor
  blocks := (List.range depth).map blockAt

/-- StructuredTransformerEncoder.forward: project the features, then fold
the blocks over the result in order. -/
def StructuredTransformerEncoder.forward {β α σ : Type} [Add α]
    (e : StructuredTransformerEncoder β α σ) (features : β) (struc : σ) :
    α :=
  e.blocks.foldl (fun out b => b.forward out struc) (e.preprocessor features)

/-- Sequential application of a list of encoder blocks, first block first:
the reference form used to state C6. -/
def applyBlocks {α σ : Type} [Add α] (struc : σ) :
    List (StructuredTransformerEncoderBlock α σ) → α → α
  | [], out => out
  | b :: rest, out => applyBlocks struc rest (b.forward out struc)

/-- torch.sigmoid. -/
noncomputable def sigmoid (x : ℝ) : ℝ := 1 / (1 + Real.exp (-x))

/-- Softmax along the last dimension, as computed by torch softmax. -/
noncomputable def softmax {m : ℕ} (v : Fin m → ℝ) : Fin m → ℝ :=
  fun j => Real.exp (v j) / ∑ k, Real.exp (v k)

/-- ProteinTransformer after construction. Sequence length n, feature size
size, mix mixture components; T is the type of the tertiary input and S the
type of the structure input. The preprocess projection and the four output
heads are the explicit submodules of the forward pass; the encoder stack
together with the orientation and relative-structure pipeline (built from
modules outside the two embedded source files) is abstracted into the
encode field. -/
structure ProteinTransformer (n size mix : ℕ) (T S : Type) where
  preprocess : (Fin 6 → ℝ) → Fin size → ℝ
  encode : (Fin n → Fin size → ℝ) → T → S → Fin n → Fin size → ℝ
  mean_proj : (Fin size → ℝ) → Fin 3 → Fin mix → ℝ
  log_concentration : (Fin size → ℝ) → Fin 3 → Fin mix → ℝ
  weights_proj : (Fin size → ℝ) → Fin mix → ℝ
  factor : (Fin size → ℝ) → Fin 3 → ℝ

/-- Angle-feature computation at the top of ProteinTransformer.forward:
previous_angles = angles.roll(1, dims=0); previous_angles[0] = 0; then the
sines and cosines are concatenated along the feature dimension and passed
through the preprocess projection. -/
noncomputable def pt_features {n size mix : ℕ} {T S : Type}
    (M : ProteinTransformer n size mix T S) (angles : Fin n → Fin 3 → ℝ) :
    Fin n → Fin size → ℝ :=
  let rolled : Fin n → Fin 3 → ℝ :=
    fun i => angles ⟨(i.val + (n - 1)) % n, Nat.mod_lt _ i.pos⟩
  let previous : Fin n → Fin 3 → ℝ :=
    fun i => if i.val = 0 then (fun _ => 0) else rolled i
  let afeat : Fin n → Fin 6 → ℝ := fun i k =>
    if h : k.val < 3 then Real.sin (previous i ⟨k.val, h⟩)
    else Real.cos (previous i ⟨k.val - 3, by have := k.isLt; omega⟩)
  fun i => M.preprocess (afeat i)

/-- ProteinTransformer.forward: the angle features are encoded, the mean
head is adjusted by the factor head on torsion components 1 and 2, the
concentration head is squashed into (0.1, 1000.1), the weight head is
softmaxed, and the per-component parameter pairs are collected in a list of
length mix. The source wraps the resulting pair in a one-element tuple. -/
noncomputable def pt_forward {n size mix : ℕ} {T S : Type}
    (M : ProteinTransformer n size mix T S) (angles : Fin n → Fin 3 → ℝ)
    (tertiary : T) (struc : S) :
    (Fin n → Fin mix → ℝ) ×
      List ((Fin n → Fin 3 → ℝ) × (Fin n → Fin 3 → ℝ)) :=
  let features := pt_features M angles
  let encoding := M.encode features tertiary struc
  let mean0 : Fin n → Fin 3 → Fin mix → ℝ := fun i => M.mean_proj (encoding i)
  let fac : Fin n → Fin 3 → ℝ := fun i => M.factor (encoding i)
  let mean : Fin n → Fin 3 → Fin mix → ℝ := fun i t j =>
    if t.val = 1 then mean0 i t j + fac i 0 * angles i 0
    else if t.val = 2 then
      mean0 i t j + (fac i 1 * angles i 0 + fac i 2 * angles i 1)
    else mean0 i t j
  let concentration : Fin n → Fin 3 → Fin mix → ℝ := fun i t j =>
    0.1 + 1000 * sigmoid (M.log_concentration (encoding i) t j)
  let weights : Fin n → Fin mix → ℝ := fun i => softmax (M.weights_proj (encoding i))
  let parameters := (List.finRange mix).map
    (fun idx => (fun i t => mean i t idx, fun i t => concentration i t idx))
  (weights, parameters)

/-- Sine and cosine features of a 3-vector of angles, concatenated as in
torch.cat((asin, acos), dim=1): entries 0-2 are sines, entries 3-5 are
cosines. -/
noncomputable def sincos6 (v : Fin 3 → ℝ) : Fin 6 → ℝ := fun k =>
  if h : k.val < 3 then Real.sin (v ⟨k.val, h⟩)
  else Real.cos (v ⟨k.val - 3, by have := k.isLt; omega⟩)

/-- A concrete ProteinTransformer instance with all submodules zero, used
to witness C4. -/
noncomputable def trivialPT : ProteinTransformer 1 1 1 Unit Unit where
  preprocess := fun _ _ => 0
  encode := fun _ _ _ _ _ => 0
  mean_proj := fun _ _ _ => 0
  log_concentration := fun _ _ _ => 0
  weights_proj := fun _ _ => 0
  factor := fun _ _ => 0

lemma skewFromUpper_eq (a : Fin 3 → ℝ) : skewFromUpper a = crossMatrix a := by
  unfold skewFromUpper crossMatrix
  ext i j
  simp only [Matrix.sub_apply, Matrix.transpose_apply]
  fin_cases i <;> fin_cases j <;>
    simp [Matrix.vecHead, Matrix.vecTail]

lemma rot_shape (u : Fin 3 → ℝ) (s c : ℝ) :
    (1 : Matrix (Fin 3) (Fin 3) ℝ) + s • crossMatrix u +
      (1 - c) • (crossMatrix u * crossMatrix u) = rotExplicit u s c := by
  unfold crossMatrix rotExplicit
  ext i j
  simp only [Matrix.add_apply, Matrix.smul_apply, Matrix.mul_apply,
    Matrix.one_apply, smul_eq_mul]
  fin_cases i <;> fin_cases j <;>
    simp [Fin.sum_univ_three, Matrix.vecHead, Matrix.vecTail, -mul_eq_zero,
      -mul_eq_mul_left_iff, -mul_eq_mul_right_iff] <;>
    ring

lemma compute_rotation_matrix_eq (axis : Fin 3 → ℝ) (angle : ℝ) :
    compute_rotation_matrix axis angle =
      rotExplicit (normalize3 axis) (Real.sin angle) (Real.cos angle) := by
  rw [compute_rotation_matrix, skewFromUpper_eq, rot_shape]

lemma norm3_pos_of_ne_zero {v : Fin 3 → ℝ} (h : v ≠ 0) : 0 < norm3 v := by
  rw [norm3, Real.sqrt_pos]
  rcases Decidable.em (v 0 = 0) with h0 | h0
  · rcases Decidable.em (v 1 = 0) with h1 | h1
    · rcases Decidable.em (v 2 = 0) with h2 | h2
      · exfalso
        apply h
        funext i
        fin_cases i <;> assumption
      · have := sq_pos_of_ne_zero h2
        nlinarith [sq_nonneg (v 0), sq_nonneg (v 1)]
    · have := sq_pos_of_ne_zero h1
      nlinarith [sq_nonneg (v 0), sq_nonneg (v 2)]
  · have := sq_pos_of_ne_zero h0
    nlinarith [sq_nonneg (v 1), sq_nonneg (v 2)]

lemma normalize3_unit {v : Fin 3 → ℝ} (h : v ≠ 0) :
    normalize3 v 0 ^ 2 + normalize3 v 1 ^ 2 + normalize3 v 2 ^ 2 = 1 := by
  have hpos := norm3_pos_of_ne_zero h
  have hsq : norm3 v ^ 2 = v 0 ^ 2 + v 1 ^ 2 + v 2 ^ 2 := by
    rw [norm3]
    exact Real.sq_sqrt (by positivity)
  have hne : norm3 v ≠ 0 := ne_of_gt hpos
  simp only [normalize3]
  field_simp
  linarith [hsq]

lemma rotExplicit_orthogonal (u : Fin 3 → ℝ) (s c : ℝ)
    (h1 : u 0 ^ 2 + u 1 ^ 2 + u 2 ^ 2 = 1) (h2 : s ^ 2 + c ^ 2 = 1) :
    (rotExplicit u s c).transpose * rotExplicit u s c = 1 := by
  ext i j
  simp only [Matrix.mul_apply, Matrix.transpose_apply, Matrix.one_apply,
    Fin.sum_univ_three]
  fin_cases i <;> fin_cases j <;>
    simp [rotExplicit, Matrix.vecHead, Matrix.vecTail, -mul_eq_zero,
      -mul_eq_mul_left_iff, -mul_eq_mul_right_iff]
  · linear_combination ((c - 1) ^ 2 * (u 1 ^ 2 + u 2 ^ 2)) * h1 +
      (u 1 ^ 2 + u 2 ^ 2) * h2
  · linear_combination (-(c - 1) ^ 2 * (u 0 * u 1)) * h1 + (-(u 0 * u 1)) * h2
  · linear_combination (-(c - 1) ^ 2 * (u 0 * u 2)) * h1 + (-(u 0 * u 2)) * h2
  · linear_combination (-(c - 1) ^ 2 * (u 0 * u 1)) * h1 + (-(u 0 * u 1)) * h2
  · linear_combination
      (s ^ 2 + c ^ 2 - 1 + (c - 1) ^ 2 * (u 0 ^ 2 + u 2 ^ 2)) * h1 +
      (1 - u 1 ^ 2) * h2
  · linear_combination (-(c - 1) ^ 2 * (u 1 * u 2)) * h1 + (-(u 1 * u 2)) * h2
  · linear_combination (-(c - 1) ^ 2 * (u 0 * u 2)) * h1 + (-(u 0 * u 2)) * h2
  · linear_combination (-(c - 1) ^ 2 * (u 1 * u 2)) * h1 + (-(u 1 * u 2)) * h2
  · linear_combination
      (s ^ 2 + c ^ 2 - 1 + (c - 1) ^ 2 * (u 0 ^ 2 + u 1 ^ 2)) * h1 +
      (1 - u 2 ^ 2) * h2

lemma rotExplicit_det (u : Fin 3 → ℝ) (s c : ℝ)
    (h1 : u 0 ^ 2 + u 1 ^ 2 + u 2 ^ 2 = 1) (h2 : s ^ 2 + c ^ 2 = 1) :
    (rotExplicit u s c).det = 1 := by
  rw [Matrix.det_fin_three]
  simp [rotExplicit, Matrix.vecHead, Matrix.vecTail, -mul_eq_zero,
    -mul_eq_mul_left_iff, -mul_eq_mul_right_iff]
  linear_combination
    (s ^ 2 + c ^ 2 - 1 + (c - 1) ^ 2 * (u 0 ^ 2 + u 1 ^ 2 + u 2 ^ 2)) * h1 + h2

lemma rotExplicit_fixes (u : Fin 3 → ℝ) (s c : ℝ) :
    (rotExplicit u s c).mulVec u = u := by
  funext i
  simp only [Matrix.mulVec, Matrix.dotProduct, Fin.sum_univ_three]
  fin_cases i <;>
    simp [rotExplicit, Matrix.vecHead, Matrix.vecTail, -mul_eq_zero,
      -mul_eq_mul_left_iff, -mul_eq_mul_right_iff] <;>
    ring

lemma rotExplicit_rodrigues (u : Fin 3 → ℝ) (s c : ℝ)
    (h1 : u 0 ^ 2 + u 1 ^ 2 + u 2 ^ 2 = 1) :
    rotExplicit u s c =
      c • (1 : Matrix (Fin 3) (Fin 3) ℝ) + s • crossMatrix u +
        (1 - c) • Matrix.vecMulVec u u := by
  ext i j
  simp only [Matrix.add_apply, Matrix.smul_apply, Matrix.one_apply,
    Matrix.vecMulVec_apply, smul_eq_mul]
  fin_cases i <;> fin_cases j <;>
    simp [rotExplicit, crossMatrix, Matrix.vecHead, Matrix.vecTail,
      -mul_eq_zero, -mul_eq_mul_left_iff, -mul_eq_mul_right_iff] <;>
    (first | ring1 | linear_combination (c - 1) * h1)

/-- C1: for every nonzero axis and every angle, compute_rotation_matrix
returns a proper rotation: R transposed times R is the identity, the
determinant of R is 1, R fixes the normalised axis, and R agrees with the
Rodrigues rotation formula for the angle about the normalised axis. -/
theorem compute_rotation_matrix_is_proper_rotation
    (axis : Fin 3 → ℝ) (angle : ℝ) (h : axis ≠ 0) :
    (compute_rotation_matrix axis angle).transpose *
        compute_rotation_matrix axis angle = 1 ∧
    (compute_rotation_matrix axis angle).det = 1 ∧
    (compute_rotation_matrix axis angle).mulVec (normalize3 axis) =
      normalize3 axis ∧
    compute_rotation_matrix axis angle =
      Real.cos angle • (1 : Matrix (Fin 3) (Fin 3) ℝ) +
        Real.sin angle • crossMatrix (normalize3 axis) +
        (1 - Real.cos angle) •
          Matrix.vecMulVec (normalize3 axis) (normalize3 axis) := by
  have h1 := normalize3_unit h
  have h2 := Real.sin_sq_add_cos_sq angle
  rw [compute_rotation_matrix_eq]
  exact ⟨rotExplicit_orthogonal _ _ _ h1 h2, rotExplicit_det _ _ _ h1 h2,
    rotExplicit_fixes _ _ _, rotExplicit_rodrigues _ _ _ h1⟩

/-- Witness for C1 at the concrete axis (1, 0, 0) and angle 0. -/
theorem compute_rotation_matrix_is_proper_rotation_witness :
    (![(1 : ℝ), 0, 0] ≠ 0) ∧
    ((compute_rotation_matrix ![(1 : ℝ), 0, 0] 0).transpose *
        compute_rotation_matrix ![(1 : ℝ), 0, 0] 0 = 1 ∧
    (compute_rotation_matrix ![(1 : ℝ), 0, 0] 0).det = 1 ∧
    (compute_rotation_matrix ![(1 : ℝ), 0, 0] 0).mulVec
        (normalize3 ![(1 : ℝ), 0, 0]) = normalize3 ![(1 : ℝ), 0, 0] ∧
    compute_rotation_matrix ![(1 : ℝ), 0, 0] 0 =
      Real.cos 0 • (1 : Matrix (Fin 3) (Fin 3) ℝ) +
        Real.sin 0 • crossMatrix (normalize3 ![(1 : ℝ), 0, 0]) +
        (1 - Real.cos 0) •
          Matrix.vecMulVec (normalize3 ![(1 : ℝ), 0, 0])
            (normalize3 ![(1 : ℝ), 0, 0])) :=
  ⟨fun hcontra => by simpa using congrFun hcontra 0,
   compute_rotation_matrix_is_proper_rotation ![(1 : ℝ), 0, 0] 0
     (fun hcontra => by simpa using congrFun hcontra 0)⟩

lemma normalize3_of_norm_one {v : Fin 3 → ℝ} (hn : norm3 v = 1) :
    normalize3 v = v := by
  funext i
  simp [normalize3, hn]

lemma rotExplicit_00 (u : Fin 3 → ℝ) (s c : ℝ) :
    rotExplicit u s c 0 0 = 1 - (1 - c) * (u 1 ^ 2 + u 2 ^ 2) := rfl

lemma rotExplicit_11 (u : Fin 3 → ℝ) (s c : ℝ) :
    rotExplicit u s c 1 1 = 1 - (1 - c) * (u 0 ^ 2 + u 2 ^ 2) := rfl

lemma rotExplicit_22 (u : Fin 3 → ℝ) (s c : ℝ) :
    rotExplicit u s c 2 2 = 1 - (1 - c) * (u 0 ^ 2 + u 1 ^ 2) := rfl

lemma rotExplicit_21 (u : Fin 3 → ℝ) (s c : ℝ) :
    rotExplicit u s c 2 1 = s * u 0 + (1 - c) * (u 1 * u 2) := rfl

lemma rotExplicit_12 (u : Fin 3 → ℝ) (s c : ℝ) :
    rotExplicit u s c 1 2 = -s * u 0 + (1 - c) * (u 1 * u 2) := rfl

lemma rotExplicit_02 (u : Fin 3 → ℝ) (s c : ℝ) :
    rotExplicit u s c 0 2 = s * u 1 + (1 - c) * (u 0 * u 2) := rfl

lemma rotExplicit_20 (u : Fin 3 → ℝ) (s c : ℝ) :
    rotExplicit u s c 2 0 = -s * u 1 + (1 - c) * (u 0 * u 2) := rfl

lemma rotExplicit_10 (u : Fin 3 → ℝ) (s c : ℝ) :
    rotExplicit u s c 1 0 = s * u 2 + (1 - c) * (u 0 * u 1) := rfl

lemma rotExplicit_01 (u : Fin 3 → ℝ) (s c : ℝ) :
    rotExplicit u s c 0 1 = -s * u 2 + (1 - c) * (u 0 * u 1) := rfl

lemma matrix_to_quaternion_rotExplicit (u : Fin 3 → ℝ) (a : ℝ)
    (h1 : u 0 ^ 2 + u 1 ^ 2 + u 2 ^ 2 = 1)
    (ha1 : -Real.pi < a) (ha2 : a < Real.pi) :
    matrix_to_quaternion (rotExplicit u (Real.sin a) (Real.cos a)) =
      ![Real.cos (a / 2), Real.sin (a / 2) * u 0, Real.sin (a / 2) * u 1,
        Real.sin (a / 2) * u 2] := by
  have hc : 0 < Real.cos (a / 2) := by
    apply Real.cos_pos_of_mem_Ioo
    constructor <;> [linarith; linarith]
  have hcsq : Real.cos (a / 2) ^ 2 = 1 / 2 + Real.cos a / 2 := by
    have h := Real.cos_sq (a / 2)
    rwa [show 2 * (a / 2) = a by ring] at h
  have hsin : Real.sin a = 2 * Real.sin (a / 2) * Real.cos (a / 2) := by
    have h := Real.sin_two_mul (a / 2)
    rwa [show 2 * (a / 2) = a by ring] at h
  have hsum : 1 + rotExplicit u (Real.sin a) (Real.cos a) 0 0 +
      rotExplicit u (Real.sin a) (Real.cos a) 1 1 +
      rotExplicit u (Real.sin a) (Real.cos a) 2 2 =
      (2 * Real.cos (a / 2)) ^ 2 := by
    rw [rotExplicit_00, rotExplicit_11, rotExplicit_22]
    linear_combination (2 * Real.cos a - 2) * h1 - 4 * hcsq
  have hsqrt :
      Real.sqrt (1 + rotExplicit u (Real.sin a) (Real.cos a) 0 0 +
        rotExplicit u (Real.sin a) (Real.cos a) 1 1 +
        rotExplicit u (Real.sin a) (Real.cos a) 2 2) =
      2 * Real.cos (a / 2) := by
    rw [hsum]
    exact Real.sqrt_sq (by positivity)
  have hcne : Real.cos (a / 2) ≠ 0 := ne_of_gt hc
  have q0 : matrix_to_quaternion (rotExplicit u (Real.sin a) (Real.cos a)) 0 =
      Real.cos (a / 2) := by
    simp only [matrix_to_quaternion, Matrix.cons_val_zero]
    rw [hsqrt]
    ring
  have q1 : matrix_to_quaternion (rotExplicit u (Real.sin a) (Real.cos a)) 1 =
      Real.sin (a / 2) * u 0 := by
    simp only [matrix_to_quaternion, Matrix.cons_val_one, Matrix.head_cons]
    rw [rotExplicit_21, rotExplicit_12, hsqrt, hsin]
    field_simp
    ring
  have q2 : matrix_to_quaternion (rotExplicit u (Real.sin a) (Real.cos a)) 2 =
      Real.sin (a / 2) * u 1 := by
    simp only [matrix_to_quaternion, Matrix.cons_val_two, Matrix.tail_cons,
      Matrix.head_cons]
    rw [rotExplicit_02, rotExplicit_20, hsqrt, hsin]
    field_simp
    ring
  have q3 : matrix_to_quaternion (rotExplicit u (Real.sin a) (Real.cos a)) 3 =
      Real.sin (a / 2) * u 2 := by
    simp only [matrix_to_quaternion, Matrix.cons_val_three, Matrix.tail_cons,
      Matrix.head_cons]
    rw [rotExplicit_10, rotExplicit_01, hsqrt, hsin]
    field_simp
    ring
  funext i
  fin_cases i
  · simpa using q0
  · simpa using q1
  · simpa using q2
  · simpa using q3

/-- C2: for a unit-norm axis and an angle strictly between -pi and pi, the
numpy path of matrix_to_quaternion applied to compute_rotation_matrix
returns the unit quaternion with scalar part cos(a/2) and vector part
sin(a/2) times the axis. -/
theorem matrix_to_quaternion_inverts_rotation (axis : Fin 3 → ℝ) (a : ℝ)
    (hn : norm3 axis = 1) (ha1 : -Real.pi < a) (ha2 : a < Real.pi) :
    matrix_to_quaternion (compute_rotation_matrix axis a) =
      ![Real.cos (a / 2), Real.sin (a / 2) * axis 0, Real.sin (a / 2) * axis 1,
        Real.sin (a / 2) * axis 2] := by
  have h0 : (0 : ℝ) ≤ axis 0 ^ 2 + axis 1 ^ 2 + axis 2 ^ 2 := by positivity
  have hs := Real.sq_sqrt h0
  rw [norm3] at hn
  rw [hn] at hs
  have h1 : axis 0 ^ 2 + axis 1 ^ 2 + axis 2 ^ 2 = 1 := by linarith [hs]
  rw [compute_rotation_matrix_eq,
    normalize3_of_norm_one (show norm3 axis = 1 by rw [norm3]; exact hn)]
  exact matrix_to_quaternion_rotExplicit axis a h1 ha1 ha2

/-- Witness for C2 at axis (1, 0, 0) and angle 0. -/
theorem matrix_to_quaternion_inverts_rotation_witness :
    norm3 ![(1 : ℝ), 0, 0] = 1 ∧ -Real.pi < 0 ∧ (0 : ℝ) < Real.pi ∧
    matrix_to_quaternion (compute_rotation_matrix ![(1 : ℝ), 0, 0] 0) =
      ![Real.cos (0 / 2), Real.sin (0 / 2) * (![(1 : ℝ), 0, 0]) 0,
        Real.sin (0 / 2) * (![(1 : ℝ), 0, 0]) 1,
        Real.sin (0 / 2) * (![(1 : ℝ), 0, 0]) 2] :=
  ⟨by simp [norm3], by linarith [Real.pi_pos], Real.pi_pos,
   matrix_to_quaternion_inverts_rotation ![(1 : ℝ), 0, 0] 0
     (by simp [norm3]) (by linarith [Real.pi_pos]) Real.pi_pos⟩

/-- C3: on numpy inputs, relative_orientation returns the triple whose first
component is the columnwise Euclidean norm of y - x, whose second component
at a column of nonzero distance is x_o transposed applied to the unit
offset and at a column of zero distance is the zero vector, and whose third
component is the quaternion of x_o.T @ y_o. -/
theorem relative_orientation_numpy_spec (n : ℕ) (x y : Fin 3 → Fin n → ℝ)
    (x_o y_o : Matrix (Fin 3) (Fin 3) ℝ) :
    (∀ j, (relative_orientation n x y x_o y_o).1 j =
      norm3 (fun i => y i j - x i j)) ∧
    (∀ i j, (relative_orientation n x y x_o y_o).2.1 i j =
      if norm3 (fun m => y m j - x m j) = 0 then 0
      else x_o.transpose.mulVec
        (fun m => (y m j - x m j) / norm3 (fun m => y m j - x m j)) i) ∧
    (relative_orientation n x y x_o y_o).2.2 =
      matrix_to_quaternion (x_o.transpose * y_o) := by
  refine ⟨fun j => rfl, fun i j => ?_, rfl⟩
  simp only [relative_orientation, np_relative_orientation, Matrix.mulVec,
    Matrix.dotProduct]

/-- C8: the result of _assign_psea_aux does not depend on the angle and
angle_spec arguments: any two choices give the same verdict, because the
dihedral criterion is tested twice while the bond-angle criterion is never
tested, so the secondary-structure assignment never depends on the computed
bond angle. -/
theorem assign_psea_aux_independent_of_angle (distances : ℕ → ℝ)
    (dihedral : ℝ) (distance_spec : Fin 3 → ℝ × ℝ) (dihedral_spec : ℝ × ℝ)
    (angle angle' : ℝ) (angle_spec angle_spec' : ℝ × ℝ) :
    assign_psea_aux distances dihedral angle distance_spec dihedral_spec
        angle_spec ↔
    assign_psea_aux distances dihedral angle' distance_spec dihedral_spec
        angle_spec' :=
  Iff.rfl

/-- C7: in both normalisation modes the block output is the block input
plus the dropout of the attention sublayer output, followed by adding the
dropout of the MLP sublayer output to that intermediate sum; in pre-norm
mode the normalisation wrappers are applied before each sublayer, in
post-norm mode after each residual addition. -/
theorem StructuredTransformerEncoderBlock.forward_residual {α σ : Type}
    [Add α] (b : StructuredTransformerEncoderBlock α σ) (f : α) (s : σ) :
    if b.pre_norm then
      b.forward f s =
        (f + b.dropout (b.attention (b.bn f) (b.bn f) s)) +
          b.dropout (b.local_mlp (b.local_bn
            (f + b.dropout (b.attention (b.bn f) (b.bn f) s))))
    else
      b.forward f s =
        b.local_bn (b.bn (f + b.dropout (b.attention f f s)) +
          b.dropout (b.local_mlp (b.bn (f + b.dropout (b.attention f f s))))) := by
  cases hb : b.pre_norm <;>
    simp [StructuredTransformerEncoderBlock.forward, hb]

/-- C10: with batch_norm off and no dropout module, the constructed block
computes the same function whether pre_norm is true or false, namely the
plain double residual out = features + attention(features, features,
structure) followed by out + local(out). -/
theorem StructuredTransformerEncoderBlock.forward_pre_post_agree {α σ : Type}
    [Add α] (pre_norm : Bool) (attention : α → α → σ → α)
    (local_mlp ln1 ln2 : α → α) (f : α) (s : σ) :
    (StructuredTransformerEncoderBlock.init pre_norm false none attention
        local_mlp ln1 ln2).forward f s =
      (f + attention f f s) + local_mlp (f + attention f f s) := by
  cases pre_norm <;>
    simp [StructuredTransformerEncoderBlock.forward,
      StructuredTransformerEncoderBlock.init]

lemma foldl_eq_applyBlocks {α σ : Type} [Add α] (struc : σ)
    (l : List (StructuredTransformerEncoderBlock α σ)) (a : α) :
    l.foldl (fun out b => b.forward out struc) a = applyBlocks struc l a := by
  induction l generalizing a with
  | nil => rfl
  | cons b rest ih => simp [applyBlocks, List.foldl_cons, ih]

/-- C6: the encoder built with a given depth holds exactly depth blocks,
and its forward pass is the linear input projection followed by the
sequential application of its blocks in construction order, with no other
transformation. -/
theorem StructuredTransformerEncoder.forward_spec {β α σ : Type} [Add α]
    (preprocessor : β → α) (depth : ℕ)
    (blockAt : ℕ → StructuredTransformerEncoderBlock α σ)
    (features : β) (struc : σ) :
    (StructuredTransformerEncoder.init preprocessor depth blockAt).blocks.length
        = depth ∧
    (StructuredTransformerEncoder.init preprocessor depth blockAt).forward
        features struc =
      applyBlocks struc
        (StructuredTransformerEncoder.init preprocessor depth blockAt).blocks
        (preprocessor features) := by
  constructor
  · simp [StructuredTransformerEncoder.init]
  · rw [StructuredTransformerEncoder.forward, foldl_eq_applyBlocks]
    rfl

lemma sigmoid_pos (x : ℝ) : 0 < sigmoid x := by
  unfold sigmoid
  positivity

lemma sigmoid_lt_one (x : ℝ) : sigmoid x < 1 := by
  unfold sigmoid
  rw [div_lt_one (by positivity)]
  linarith [Real.exp_pos (-x)]

lemma softmax_nonneg {m : ℕ} (v : Fin m → ℝ) (j : Fin m) :
    0 ≤ softmax v j := by
  unfold softmax
  have h1 : (0 : ℝ) ≤ Real.exp (v j) := le_of_lt (Real.exp_pos _)
  have h2 : (0 : ℝ) ≤ ∑ k, Real.exp (v k) :=
    Finset.sum_nonneg fun k _ => le_of_lt (Real.exp_pos _)
  exact div_nonneg h1 h2

lemma softmax_sum_one {m : ℕ} (hm : 0 < m) (v : Fin m → ℝ) :
    ∑ j, softmax v j = 1 := by
  unfold softmax
  have : Nonempty (Fin m) := Fin.pos_iff_nonempty.mp hm
  have hpos : (0 : ℝ) < ∑ k, Real.exp (v k) :=
    Finset.sum_pos (fun k _ => Real.exp_pos _) Finset.univ_nonempty
  rw [← Finset.sum_div]
  exact div_self (ne_of_gt hpos)

/-- C5: the angle features fed to the encoder at position i are the
preprocess projection of the sines and cosines of the angles at position
i - 1, and position 0 receives the projection of the all-zero angles, so no
encoder input depends on the angles at its own or any later position. -/
theorem pt_features_shifted {n size mix : ℕ} {T S : Type}
    (M : ProteinTransformer n size mix T S) (angles : Fin n → Fin 3 → ℝ)
    (i : Fin n) :
    pt_features M angles i =
      M.preprocess (sincos6
        (if i.val = 0 then (fun _ => 0)
         else angles ⟨i.val - 1,
           lt_of_le_of_lt (Nat.sub_le _ _) i.isLt⟩)) := by
  simp only [pt_features]
  refine congrArg M.preprocess (funext fun k => ?_)
  by_cases h0 : i.val = 0
  · simp [h0, sincos6]
  · have hv : (i.val + (n - 1)) % n = i.val - 1 := by
      have hn : 0 < n := i.pos
      have h1 : i.val + (n - 1) = n + (i.val - 1) := by omega
      rw [h1, Nat.add_mod_left]
      exact Nat.mod_eq_of_lt (by omega)
    simp only [h0, if_false, sincos6, hv]

/-- C4: the weights returned by ProteinTransformer.forward are a valid
categorical distribution over the mixture components, every weight
nonnegative and every row summing to one, and the parameter list holds
exactly mix pairs of per-component mean and concentration fields over the 3
torsion angles. -/
theorem pt_forward_mixture {n size mix : ℕ} {T S : Type}
    (M : ProteinTransformer n size mix T S) (hmix : 0 < mix)
    (angles : Fin n → Fin 3 → ℝ) (tertiary : T) (struc : S) :
    (∀ i j, 0 ≤ (pt_forward M angles tertiary struc).1 i j) ∧
    (∀ i, ∑ j, (pt_forward M angles tertiary struc).1 i j = 1) ∧
    (pt_forward M angles tertiary struc).2.length = mix := by
  refine ⟨fun i j => ?_, fun i => ?_, ?_⟩
  · exact softmax_nonneg _ j
  · exact softmax_sum_one hmix _
  · simp [pt_forward]

/-- Witness for C4 on the concrete all-zero model and all-zero angles. -/
theorem pt_forward_mixture_witness :
    0 < 1 ∧
    ((∀ i j, 0 ≤ (pt_forward trivialPT (fun _ _ => 0) () ()).1 i j) ∧
     (∀ i, ∑ j, (pt_forward trivialPT (fun _ _ => 0) () ()).1 i j = 1) ∧
     (pt_forward trivialPT (fun _ _ => 0) () ()).2.length = 1) :=
  ⟨Nat.one_pos, pt_forward_mixture trivialPT Nat.one_pos (fun _ _ => 0) () ()⟩

/-- C9: every per-component concentration value returned by
ProteinTransformer.forward lies strictly between 0.1 and 1000.1, for every
input and every encoding. -/
theorem pt_forward_concentration_bounds {n size mix : ℕ} {T S : Type}
    (M : ProteinTransformer n size mix T S) (angles : Fin n → Fin 3 → ℝ)
    (tertiary : T) (struc : S)
    (idx : Fin (pt_forward M angles tertiary struc).2.length) (i : Fin n)
    (t : Fin 3) :
    0.1 < ((pt_forward M angles tertiary struc).2.get idx).2 i t ∧
    ((pt_forward M angles tertiary struc).2.get idx).2 i t < 1000.1 := by
  obtain ⟨k, hk⟩ := idx
  have hk2 : k < mix := by
    simpa [pt_forward] using hk
  have hget : ((pt_forward M angles tertiary struc).2.get ⟨k, hk⟩).2 i t =
      0.1 + 1000 * sigmoid (M.log_concentration
        (M.encode (pt_features M angles) tertiary struc i) t
        ((List.finRange mix).get ⟨k, by simpa using hk2⟩)) := by
    simp [pt_forward]
  rw [hget]
  constructor
  · nlinarith [sigmoid_pos (M.log_concentration
      (M.encode (pt_features M angles) tertiary struc i) t
      ((List.finRange mix).get ⟨k, by simpa using hk2⟩))]
  · nlinarith [sigmoid_lt_one (M.log_concentration
      (M.encode (pt_features M angles) tertiary struc i) t
      ((List.finRange mix).get ⟨k, by simpa using hk2⟩))]

end Protsupport
